import Mathlib

/-!
Verification of the `game-theory-extractor` scripts (`validate.py` and
`extract.py`): a shallow embedding of the Prolog-fact validator and of the
page-by-page extraction loop, together with theorems settling the stated
properties of the specification.

Strings are modelled as `List Char`.  Python's `str.strip` / regex `\s` are
modelled over the six ASCII whitespace characters (the inputs at issue never
contain exotic Unicode whitespace).
-/

namespace GTExtract

/-- The whitespace class used by Python's `str.strip` and the regex `\s`
(ASCII fragment). -/
def isPySpace (c : Char) : Bool :=
  c = ' ' || c = '\t' || c = '\n' || c = '\r' || c = '\x0b' || c = '\x0c'

/-- Python `str.strip()`: drop whitespace from both ends. -/
def pyStrip (l : List Char) : List Char :=
  (l.dropWhile isPySpace).rdropWhile isPySpace

/-- Python `str.split('\n')`: split into lines at every newline character
(an empty string yields one empty line, like `''.split('\n') == ['']`). -/
def splitLines : List Char → List (List Char)
  | [] => [[]]
  | c :: rest =>
    if c = '\n' then [] :: splitLines rest
    else
      match splitLines rest with
      | [] => [[c]]
      | h :: t => (c :: h) :: t

/-! ## `check_balanced_parens` (validate.py lines 22-47)

The source scans left to right keeping `count`, `in_string`, `escape_next`,
returning `False` as soon as the counter goes negative and `count == 0` at the
end.  `cbpGo` mirrors that loop; `check_balanced_parens` is the entry point. -/

def cbpGo : Int → Bool → Bool → List Char → Bool
  | count, _, _, [] => count == 0
  | count, inString, true, _ :: rest => cbpGo count inString false rest
  | count, inString, false, c :: rest =>
    if c = '\\' then cbpGo count inString true rest
    else if c = '"' then cbpGo count (!inString) false rest
    else if inString then cbpGo count inString false rest
    else if c = '(' then cbpGo (count + 1) inString false rest
    else if c = ')' then
      if count - 1 < 0 then false else cbpGo (count - 1) inString false rest
    else cbpGo count inString false rest

def check_balanced_parens (l : List Char) : Bool :=
  cbpGo 0 false false l

/-! Specification-side view of the same scan (for the refinement statement of
the balanced-parenthesis claim): a plain step function with no early exit.
Parentheses are counted only outside quoted-string spans and outside escapes. -/

structure ScanState where
  count : Int
  inString : Bool
  escapeNext : Bool
deriving DecidableEq, Repr

def scanStep (st : ScanState) (c : Char) : ScanState :=
  if st.escapeNext then { st with escapeNext := false }
  else if c = '\\' then { st with escapeNext := true }
  else if c = '"' then { st with inString := !st.inString }
  else if st.inString then st
  else if c = '(' then { st with count := st.count + 1 }
  else if c = ')' then { st with count := st.count - 1 }
  else st

def scanFrom (st : ScanState) (l : List Char) : ScanState :=
  l.foldl scanStep st

/-- `true` iff the counter stays nonnegative after every step of the scan. -/
def scanNonneg : ScanState → List Char → Bool
  | _, [] => true
  | st, c :: rest =>
    let st1 := scanStep st c
    (0 ≤ st1.count) && scanNonneg st1 rest

/-- The initial scanner state. -/
def scanInit : ScanState := ⟨0, false, false⟩

/-! ## `parse_prolog_string` (validate.py lines 50-74)

The only function in `validate.py` that raises (`ValueError`); embedded with
`Except`.  Returns the string contents and the index one past the closing
quote. -/

inductive PyErr
  | valueError (msg : String)
deriving DecidableEq, Repr

def ppsGo : List Char → Nat → List Char → Except PyErr (List Char × Nat)
  | [], _, _ => .error (.valueError "Unterminated string")
  | [c], i, acc =>
    if c = '"' then .ok (acc.reverse, i + 1)
    else .error (.valueError "Unterminated string")
  | c :: c2 :: rest, i, acc =>
    if c = '"' then
      if c2 = '"' then ppsGo rest (i + 2) ('"' :: acc)
      else .ok (acc.reverse, i + 1)
    else if c = '\\' then ppsGo rest (i + 2) (c2 :: acc)
    else ppsGo (c2 :: rest) (i + 1) (c :: acc)

def parse_prolog_string (s : List Char) : Except PyErr (List Char × Nat) :=
  match s with
  | '"' :: rest => ppsGo rest 1 []
  | _ => .error (.valueError "String must start with quote")

/-! ## `FACT_PATTERN` (validate.py lines 13-16)

`re.compile(r'^([a-z_][a-z0-9_]*)\s*\((.*)\)\s*\.\s*$', re.IGNORECASE)`.
The match is determinised: the trailing `\s*\.\s*$` and `\)` force the final
whitespace runs to be maximal (`.` and `)` are not whitespace), and the leading
identifier and whitespace runs are likewise forced to be maximal, so the
pattern matches iff the line decomposes as
`ident ++ ws ++ '(' ++ args ++ ')' ++ ws ++ '.' ++ ws`
with `args` free of newlines (plain `.` does not match `'\n'`).
Returns `(predicate, args)` on success. -/

def isIdentStart (c : Char) : Bool :=
  ('a' ≤ c && c ≤ 'z') || ('A' ≤ c && c ≤ 'Z') || c = '_'

def isIdentChar (c : Char) : Bool :=
  isIdentStart c || ('0' ≤ c && c ≤ '9')

def factPatternMatch (l : List Char) : Option (List Char × List Char) :=
  match (l.reverse.dropWhile isPySpace) with
  | '.' :: r2 =>
    match r2.dropWhile isPySpace with
    | ')' :: r4 =>
      let body := r4.reverse
      let pred := body.takeWhile isIdentChar
      match pred with
      | [] => none
      | c :: _ =>
        if isIdentStart c then
          match (body.dropWhile isIdentChar).dropWhile isPySpace with
          | '(' :: args => if args.contains '\n' then none else some (pred, args)
          | _ => none
        else none
    | _ => none
  | _ => none

/-! ## `validate_fact` (validate.py lines 77-108) -/

def VALID_PREDICATES : List (List Char) :=
  ["concept".data, "relates".data, "example".data, "formula".data]

def validate_fact (line : List Char) : Bool × List Char :=
  let l := pyStrip line
  if l = [] || l.head? = some '%' then (true, [])
  else if check_balanced_parens l = false then
    (false, "Unbalanced parentheses".data)
  else
    match factPatternMatch l with
    | none => (false, "Invalid fact syntax: ".data ++ l.take 50 ++ "...".data)
    | some (pred, _args) =>
      if VALID_PREDICATES.contains pred = false then
        (false, "Unknown predicate: ".data ++ pred)
      else if (l.rdropWhile isPySpace).getLast? ≠ some '.' then
        (false, "Fact must end with period".data)
      else (true, [])

/-! ## `validate_prolog_syntax` (validate.py lines 111-132) -/

def validateLines : List (List Char) → Bool
  | [] => true
  | line :: rest =>
    let l := pyStrip line
    if l = [] || l.head? = some '%' then validateLines rest
    else if (validate_fact l).1 = false then false
    else validateLines rest

def validate_prolog_syntax (s : List Char) : Bool :=
  validateLines (splitLines (pyStrip s))

/-! Exception-discipline view of the validator: each function body translated
into `Except PyErr`, with any raising call propagated.  `validate_fact` and
`validate_prolog_syntax` contain no `raise` and never call
`parse_prolog_string`, so the translation surfaces every outcome as `ok`. -/

def validate_factE (line : List Char) : Except PyErr (Bool × List Char) :=
  let l := pyStrip line
  if l = [] || l.head? = some '%' then .ok (true, [])
  else if check_balanced_parens l = false then
    .ok (false, "Unbalanced parentheses".data)
  else
    match factPatternMatch l with
    | none => .ok (false, "Invalid fact syntax: ".data ++ l.take 50 ++ "...".data)
    | some (pred, _args) =>
      if VALID_PREDICATES.contains pred = false then
        .ok (false, "Unknown predicate: ".data ++ pred)
      else if (l.rdropWhile isPySpace).getLast? ≠ some '.' then
        .ok (false, "Fact must end with period".data)
      else .ok (true, [])

def validateLinesE : List (List Char) → Except PyErr Bool
  | [] => .ok true
  | line :: rest =>
    let l := pyStrip line
    if l = [] || l.head? = some '%' then validateLinesE rest
    else
      match validate_factE l with
      | .error e => .error e
      | .ok (b, _msg) => if b = false then .ok false else validateLinesE rest

def validate_prolog_syntaxE (s : List Char) : Except PyErr Bool :=
  validateLinesE (splitLines (pyStrip s))


/-! ## Claim-side vocabulary for the `concept(X, N, "S").` payload family

These definitions formalise the words of the testable property: `X` a
snake_case identifier, `N` an integer (by its decimal token), `S` text whose
internal quotes are doubled.  `mkConceptLine X D S` is the single-line payload
`concept(X, D, "S").` itself. -/

def isSnakeChar (c : Char) : Bool :=
  ('a' ≤ c && c ≤ 'z') || ('0' ≤ c && c ≤ '9') || c = '_'

def isSnakeIdent : List Char → Bool
  | [] => false
  | c :: rest => (('a' ≤ c && c ≤ 'z') || c = '_') && (c :: rest).all isSnakeChar

def isNumChar (c : Char) : Bool := '0' ≤ c && c ≤ '9'

/-- A decimal integer token: optional leading minus, then at least one digit. -/
def isIntToken : List Char → Bool
  | [] => false
  | c :: rest =>
    if c = '-' then !rest.isEmpty && rest.all isNumChar
    else (c :: rest).all isNumChar

/-- Every quote character in the text is immediately doubled. -/
def quotesDoubled : List Char → Bool
  | [] => true
  | c :: rest =>
    if c = '"' then
      match rest with
      | [] => false
      | c2 :: rest2 => if c2 = '"' then quotesDoubled rest2 else false
    else quotesDoubled rest

/-- The payload `concept(X, D, "S").` as a character list. -/
def mkConceptLine (X D S : List Char) : List Char :=
  'c' :: 'o' :: 'n' :: 'c' :: 'e' :: 'p' :: 't' :: '(' ::
    (X ++ ',' :: ' ' :: (D ++ ',' :: ' ' :: '"' :: (S ++ '"' :: ')' :: '.' :: [])))


/-- The claim-side line class for C9: a line that is blank (whitespace only)
or whose first non-whitespace character is the comment marker `%` — exactly
the skip condition of the validator. -/
def blankOrComment (l : List Char) : Bool :=
  pyStrip l = [] || (pyStrip l).head? = some '%'

/-- Splice two line lists as concatenating their underlying texts does:
the last line of the first list fuses with the first line of the second. -/
def joinLast : List (List Char) → List (List Char) → List (List Char)
  | [x], y :: ys => (x ++ y) :: ys
  | x :: xs, ys => x :: joinLast xs ys
  | [], ys => ys

/-! ## The extraction loop (`extract.py`, `process_pdf` and helpers)

The loop's effects on the outside world (state file, knowledge-base file,
raw-response artifacts, sleeps, log lines) are recorded as a trace of events;
the generation service is an oracle `gen page attempt`.  `process_pdf` returns
the trace together with a flag saying whether the final-attempt `APIError` was
re-raised (terminating the loop). -/

/-- Outcome of one `call_claude` invocation: a payload, a `RateLimitError`,
or a generic `APIError`. -/
inductive GenResult
  | success (payload : List Char)
  | rateLimited
  | apiError
deriving DecidableEq, Repr

/-- Observable side effects of the loop, in program order. -/
inductive Event
  /-- `init_knowledge_base` wrote the schema preamble (file was absent). -/
  | initKB
  /-- `log_skip` for a page whose text is missing or shorter than 50 chars. -/
  | skip (page : Nat)
  /-- `save_state(n)`: the state file now holds `{"current_page": n}`. -/
  | saveState (page : Nat)
  /-- `append_to_knowledge_base` with the marker-prefixed facts. -/
  | appendKB (facts : List Char)
  /-- `save_raw_response(page, payload)` debug artifact. -/
  | saveRaw (page : Nat) (payload : List Char)
  /-- `log_error` for an `APIError` on this page. -/
  | logErr (page : Nat)
  /-- `log_invalid_output` for a payload failing validation. -/
  | logInvalid (page : Nat)
  /-- `time.sleep(2 ** attempt)` backoff after a `RateLimitError`. -/
  | sleepBackoff (seconds : Nat)
  /-- `time.sleep(0.5)` base rate limiting after the attempt loop. -/
  | sleepBase
deriving DecidableEq, Repr

/-- The fixed collaborators of one run: the PDF's extracted page texts
(index 0 = page 1) and the generation oracle (1-indexed page, 0-indexed
attempt), plus whether the knowledge-base file already exists. -/
structure Env where
  pages : List (List Char)
  gen : Nat → Nat → GenResult
  kbExists : Bool

/-- `f"\n% === Page {current_page} ===\n{prolog_facts}"` (extract.py:151). -/
def factsWithMarker (current : Nat) (payload : List Char) : List Char :=
  "\n% === Page ".data ++ (Nat.repr current).data ++ " ===\n".data ++ payload

/-- `max_retries = 3` (extract.py:139). -/
def maxRetries : Nat := 3

/-- The `for attempt in range(max_retries)` loop (extract.py:147-172), run on
the list of remaining attempt numbers (`attempt == max_retries - 1` is
equivalent to the remaining list being a singleton, since the loop is entered
with `List.range maxRetries`).  Returns the events and whether the final
`APIError` was re-raised. -/
def runAttempts (g : Nat → GenResult) (current : Nat) :
    List Nat → List Event × Bool
  | [] => ([], false)
  | a :: rest =>
    match g a with
    | .success payload =>
      if validate_prolog_syntax payload then
        ([.appendKB (factsWithMarker current payload), .saveState current], false)
      else
        ([.logInvalid current, .saveRaw current payload, .saveState current], false)
    | .rateLimited =>
      let r := runAttempts g current rest
      (.sleepBackoff (2 ^ a) :: r.1, r.2)
    | .apiError =>
      if rest.isEmpty then
        ([.logErr current, .saveState (current - 1)], true)
      else
        let r := runAttempts g current rest
        (.logErr current :: .saveState (current - 1) :: r.1, r.2)

/-- One iteration of the page loop (extract.py:141-176) for 0-based page index
`idx` (`current_page = idx + 1`).  A skipped page `continue`s past the base
sleep; a page whose attempt loop `break`s or exhausts reaches it. -/
def processPage (env : Env) (idx : Nat) : List Event × Bool :=
  let current := idx + 1
  let text := env.pages.getD idx []
  if text.isEmpty || text.length < 50 then
    ([.skip current, .saveState current], false)
  else
    let r := runAttempts (env.gen current) current (List.range maxRetries)
    if r.2 then r else (r.1 ++ [.sleepBase], false)

/-- The page loop over the remaining 0-based page indices; a re-raised
`APIError` aborts the remaining pages. -/
def processPages (env : Env) : List Nat → List Event × Bool
  | [] => ([], false)
  | idx :: rest =>
    let r := processPage env idx
    if r.2 then (r.1, true)
    else
      let r2 := processPages env rest
      (r.1 ++ r2.1, r2.2)

/-- The 0-based page indices `range(start_page - 1, end_page)` visited by
`process_pdf`, after resolving `start_page` (`load_state()` when the argument
is `None`, defaulting to 1 when the state file is absent) and `end_page`
(`min(start_page + max_pages - 1, total)` when `max_pages` is truthy). -/
def plannedIndices (env : Env) (startArg stateFile maxPages : Option Nat) :
    List Nat :=
  let startPage := match startArg with
    | some sp => sp
    | none => stateFile.getD 1
  let total := env.pages.length
  let endPage := match maxPages with
    | some m => if m = 0 then total else min (startPage + m - 1) total
    | none => total
  List.range' (startPage - 1) (endPage - (startPage - 1))

/-- `process_pdf` (extract.py:118-178): initialise the knowledge base if
absent, then run the page loop over the planned indices. -/
def processPdf (env : Env) (startArg stateFile maxPages : Option Nat) :
    List Event × Bool :=
  let initEvs : List Event := if env.kbExists then [] else [.initKB]
  let r := processPages env (plannedIndices env startArg stateFile maxPages)
  (initEvs ++ r.1, r.2)

/-! Trace observations used by the theorems. -/

/-- The page an event concerns, if any. -/
def eventPage : Event → Option Nat
  | .skip n => some n
  | .saveState n => some n
  | .saveRaw n _ => some n
  | .logErr n => some n
  | .logInvalid n => some n
  | _ => none

/-- The successive values written to the progress-state file. -/
def savedStates (t : List Event) : List Nat :=
  t.filterMap fun e => match e with | .saveState n => some n | _ => none

/-- The successive payloads appended to the knowledge base. -/
def kbAppends (t : List Event) : List (List Char) :=
  t.filterMap fun e => match e with | .appendKB s => some s | _ => none

/-- The raw-response debug artifacts written, as (page, payload) pairs. -/
def rawWrites (t : List Event) : List (Nat × List Char) :=
  t.filterMap fun e => match e with | .saveRaw n s => some (n, s) | _ => none

/-- The first page any event of the trace concerns. -/
def firstTouchedPage (t : List Event) : Option Nat :=
  (t.filterMap eventPage).head?

/-- Total backoff wait (seconds) recorded in the trace. -/
def backoffTotal (t : List Event) : Nat :=
  (t.filterMap fun e => match e with | .sleepBackoff n => some n | _ => none).sum

/-- The events one non-final attempt contributes when it does not break out of
the attempt loop (used to describe the trace of a page that ends in a re-raised
`APIError`). -/
def attemptTrace (current a : Nat) : GenResult → List Event
  | .rateLimited => [.sleepBackoff (2 ^ a)]
  | .apiError => [.logErr current, .saveState (current - 1)]
  | .success _ => []

/-! Concrete inputs used by counterexamples and witnesses. -/

/-- A page text long enough (60 chars) not to be skipped. -/
def longText : List Char := List.replicate 60 'x'

/-- A payload accepted by the validator. -/
def validLine : List Char := "concept(a, 1, \"x\").".data

/-- Six unreadable (empty) pages; the state file will say page 5. -/
def c1cxEnv : Env := ⟨List.replicate 6 [], fun _ _ => .apiError, true⟩

/-- A one-page document (for the resumption witness). -/
def c1wEnv : Env := ⟨[[]], fun _ _ => .apiError, true⟩

/-- Rate-limited on attempts 0, 1 and 2; a valid payload would be returned on
attempt 3 — which the retry ceiling never reaches. -/
def c2cxEnv : Env :=
  ⟨[longText], fun _ a => if a ≤ 2 then .rateLimited else .success validLine, true⟩

/-- Rate-limited on attempts 0 and 1; a valid payload on attempt 2. -/
def c2wEnv : Env :=
  ⟨[longText], fun _ a => if a ≤ 1 then .rateLimited else .success validLine, true⟩

/-- Every generation call fails with a generic `APIError`. -/
def c3wEnv : Env := ⟨[longText, longText], fun _ _ => .apiError, true⟩

/-- The generation call returns an invalid payload. -/
def c6wEnv : Env := ⟨[longText], fun _ _ => .success "junk".data, true⟩

/-- Every generation call is rate-limited. -/
def c10wEnv : Env := ⟨[longText, longText], fun _ _ => .rateLimited, true⟩

/-- A line with an unterminated quoted string (from the module's own tests). -/
def c8wLine : List Char := "concept(test, 1, \"unclosed string".data

/-! # Theorems -/

/-! ## Shared helper lemmas -/

theorem page_long {l : List Char} (h : 50 ≤ l.length) :
    ¬ l = [] ∧ 50 ≤ l.length :=
  ⟨fun he => by subst he; simp at h, h⟩

theorem range_maxRetries : List.range maxRetries = [0, 1, 2] := by decide

/-! ## C1 — resumption from persisted state

The claim says the loop resumes at (persisted value + 1).  In the code,
`load_state()` returns the persisted `current_page` — the last successfully
processed page — and the page loop is `range(start_page - 1, end_page)`, whose
first iteration has `current_page = start_page`.  So the first page processed
on restart is the persisted value itself: the last successfully processed page
is re-processed, not only the in-flight one. -/

/-- C1 (counterexample): six pages, persisted progress 5, no explicit start
page.  The first page the restarted loop touches is page 5, not page 6 as the
claim requires. -/
theorem c1_counterexample :
    firstTouchedPage (processPdf c1cxEnv none (some 5) none).1 = some 5 ∧
    (some 5 : Option Nat) ≠ some 6 := by
  constructor
  · rfl
  · decide

/-- C1 (amended): when `process_pdf` is called with no explicit start page and
a persisted progress state `p` exists (with `1 ≤ p ≤ total`), the loop resumes
AT the persisted page `p` — the first planned iteration has
`current_page = p`, and the run is identical to one explicitly started at
page `p` — so the last successfully processed page is re-processed on
restart. -/
theorem c1_resume_from_state (env : Env) (p : Nat) (st mp : Option Nat)
    (h1 : 1 ≤ p) (h2 : p ≤ env.pages.length) :
    (plannedIndices env none (some p) none).head? = some (p - 1) ∧
    processPdf env none (some p) mp = processPdf env (some p) st mp := by
  constructor
  · simp only [plannedIndices, Option.getD]
    have hn : env.pages.length - (p - 1) = (env.pages.length - p) + 1 := by omega
    rw [hn]
    simp [List.range']
  · simp [processPdf, plannedIndices]

/-- Witness for `c1_resume_from_state` at `p = 1` on a one-page document. -/
theorem c1_resume_from_state_witness :
    (1 ≤ 1 ∧ 1 ≤ c1wEnv.pages.length) ∧
    ((plannedIndices c1wEnv none (some 1) none).head? = some 0 ∧
      processPdf c1wEnv none (some 1) none = processPdf c1wEnv (some 1) none none) :=
  ⟨by decide, c1_resume_from_state c1wEnv 1 none none (by decide) (by decide)⟩

/-! ## C2 — rate-limit retries

The claim says a success on the fourth attempt is still within the retry
ceiling.  In the code `max_retries = 3` and the attempt loop is
`for attempt in range(max_retries)`, so only attempts 0, 1 and 2 are ever
made: after three rate-limited attempts the page is abandoned and the
would-be successful fourth call never happens. -/

/-- C2 (counterexample): the oracle is rate-limited on attempts 0-2 and would
return a valid payload on attempt 3.  The page's trace is just the three
backoff sleeps and the base sleep: nothing is appended, no progress is
persisted, and the page never reaches the generated state — even though the
fourth attempt would have succeeded with a payload that validates. -/
theorem c2_counterexample :
    processPage c2cxEnv 0 =
      ([.sleepBackoff 1, .sleepBackoff 2, .sleepBackoff 4, .sleepBase], false) ∧
    kbAppends (processPage c2cxEnv 0).1 = [] ∧
    savedStates (processPage c2cxEnv 0).1 = [] ∧
    c2cxEnv.gen 1 3 = .success validLine ∧
    validate_prolog_syntax validLine = true := by
  refine ⟨rfl, rfl, rfl, rfl, ?_⟩
  decide

/-- C2 (amended): a page whose generation call is rate-limited on two
consecutive attempts and succeeds on the third attempt (the last one the
retry ceiling of 3 permits) reaches the generated state and is validated:
the payload is appended with its page marker and progress is persisted, after
a total backoff wait of 1 + 2 = 3 time units. -/
theorem c2_third_attempt_success (env : Env) (idx : Nat) (payload : List Char)
    (hlen : 50 ≤ (env.pages.getD idx []).length)
    (h0 : env.gen (idx + 1) 0 = .rateLimited)
    (h1 : env.gen (idx + 1) 1 = .rateLimited)
    (h2 : env.gen (idx + 1) 2 = .success payload)
    (hv : validate_prolog_syntax payload = true) :
    processPage env idx =
      ([.sleepBackoff 1, .sleepBackoff 2,
        .appendKB (factsWithMarker (idx + 1) payload), .saveState (idx + 1),
        .sleepBase], false) ∧
    backoffTotal (processPage env idx).1 = 3 := by
  have hp : processPage env idx =
      ([.sleepBackoff 1, .sleepBackoff 2,
        .appendKB (factsWithMarker (idx + 1) payload), .saveState (idx + 1),
        .sleepBase], false) := by
    simp [processPage, range_maxRetries, runAttempts, h0, h1, h2, hv]
    all_goals exact page_long (by simpa using hlen)
  exact ⟨hp, by rw [hp]; rfl⟩

/-- Witness for `c2_third_attempt_success` on a concrete environment. -/
theorem c2_third_attempt_success_witness :
    (50 ≤ (c2wEnv.pages.getD 0 []).length ∧
      c2wEnv.gen 1 0 = .rateLimited ∧ c2wEnv.gen 1 1 = .rateLimited ∧
      c2wEnv.gen 1 2 = .success validLine ∧
      validate_prolog_syntax validLine = true) ∧
    (processPage c2wEnv 0 =
      ([.sleepBackoff 1, .sleepBackoff 2,
        .appendKB (factsWithMarker 1 validLine), .saveState 1,
        .sleepBase], false) ∧
    backoffTotal (processPage c2wEnv 0).1 = 3) :=
  ⟨⟨by decide, rfl, rfl, rfl, by decide⟩,
    c2_third_attempt_success c2wEnv 0 validLine (by decide) rfl rfl rfl (by decide)⟩

/-! ## C3 — `APIError` on the final attempt -/

/-- C3: if page `N = idx + 1` is reached (its text is long enough), every
earlier attempt ends in `RateLimitError` or `APIError` (so the attempt loop
reaches the final attempt), and the final allowed attempt raises `APIError`,
then: each `APIError` attempt logs and persists progress `N - 1 = idx` and
continues; on the final attempt the error is re-raised (`true` flag), the loop
terminates, and no page after `N` contributes any event; every progress value
persisted while handling page `N` equals `N - 1`, and at least one is
persisted. -/
theorem c3_api_error_final_attempt (env : Env) (idx : Nat) (rest : List Nat)
    (hlen : 50 ≤ (env.pages.getD idx []).length)
    (h0 : env.gen (idx + 1) 0 = .rateLimited ∨ env.gen (idx + 1) 0 = .apiError)
    (h1 : env.gen (idx + 1) 1 = .rateLimited ∨ env.gen (idx + 1) 1 = .apiError)
    (h2 : env.gen (idx + 1) 2 = .apiError) :
    processPages env (idx :: rest) =
      (attemptTrace (idx + 1) 0 (env.gen (idx + 1) 0) ++
        attemptTrace (idx + 1) 1 (env.gen (idx + 1) 1) ++
        [.logErr (idx + 1), .saveState idx], true) ∧
    savedStates (processPages env (idx :: rest)).1 ≠ [] ∧
    ∀ n ∈ savedStates (processPages env (idx :: rest)).1, n = idx := by
  have hp : processPage env idx =
      (attemptTrace (idx + 1) 0 (env.gen (idx + 1) 0) ++
        attemptTrace (idx + 1) 1 (env.gen (idx + 1) 1) ++
        [.logErr (idx + 1), .saveState idx], true) := by
    rcases h0 with h0 | h0 <;> rcases h1 with h1 | h1 <;>
      simp [processPage, range_maxRetries, runAttempts, h0, h1, h2, attemptTrace] <;>
      exact page_long (by simpa using hlen)
  have hps : processPages env (idx :: rest) =
      (attemptTrace (idx + 1) 0 (env.gen (idx + 1) 0) ++
        attemptTrace (idx + 1) 1 (env.gen (idx + 1) 1) ++
        [.logErr (idx + 1), .saveState idx], true) := by
    simp [processPages, hp]
  refine ⟨hps, ?_, ?_⟩ <;> rw [hps] <;>
    rcases h0 with h0 | h0 <;> rcases h1 with h1 | h1 <;>
      simp [savedStates, attemptTrace, h0, h1]

/-- Witness for `c3_api_error_final_attempt`: all attempts fail with
`APIError` on a two-page document; page 2 is never processed. -/
theorem c3_api_error_final_attempt_witness :
    (50 ≤ (c3wEnv.pages.getD 0 []).length ∧
      (c3wEnv.gen 1 0 = .rateLimited ∨ c3wEnv.gen 1 0 = .apiError) ∧
      (c3wEnv.gen 1 1 = .rateLimited ∨ c3wEnv.gen 1 1 = .apiError) ∧
      c3wEnv.gen 1 2 = .apiError) ∧
    (processPages c3wEnv [0, 1] =
      (attemptTrace 1 0 (c3wEnv.gen 1 0) ++ attemptTrace 1 1 (c3wEnv.gen 1 1) ++
        [.logErr 1, .saveState 0], true) ∧
    savedStates (processPages c3wEnv [0, 1]).1 ≠ [] ∧
    ∀ n ∈ savedStates (processPages c3wEnv [0, 1]).1, n = 0) :=
  ⟨⟨by decide, Or.inr rfl, Or.inr rfl, rfl⟩,
    c3_api_error_final_attempt c3wEnv 0 [1] (by decide) (Or.inr rfl) (Or.inr rfl) rfl⟩

/-! ## C6 — rejected payload -/

/-- C6: when the first generation call returns a payload that fails
validation, the loop logs, writes the raw payload to the per-page debug
artifact, persists progress = current page, and breaks out of the attempt loop
(the conclusion does not depend on the oracle's later attempts, so the page is
not retried); nothing is appended to the knowledge base. -/
theorem c6_rejected_payload (env : Env) (idx : Nat) (payload : List Char)
    (hlen : 50 ≤ (env.pages.getD idx []).length)
    (h0 : env.gen (idx + 1) 0 = .success payload)
    (hv : validate_prolog_syntax payload = false) :
    processPage env idx =
      ([.logInvalid (idx + 1), .saveRaw (idx + 1) payload,
        .saveState (idx + 1), .sleepBase], false) ∧
    kbAppends (processPage env idx).1 = [] ∧
    rawWrites (processPage env idx).1 = [(idx + 1, payload)] ∧
    savedStates (processPage env idx).1 = [idx + 1] := by
  have hp : processPage env idx =
      ([.logInvalid (idx + 1), .saveRaw (idx + 1) payload,
        .saveState (idx + 1), .sleepBase], false) := by
    simp [processPage, range_maxRetries, runAttempts, h0, hv]
    all_goals exact page_long (by simpa using hlen)
  exact ⟨hp, by rw [hp]; rfl, by rw [hp]; rfl, by rw [hp]; rfl⟩

/-- Witness for `c6_rejected_payload` with the payload `junk`. -/
theorem c6_rejected_payload_witness :
    (50 ≤ (c6wEnv.pages.getD 0 []).length ∧
      c6wEnv.gen 1 0 = .success "junk".data ∧
      validate_prolog_syntax "junk".data = false) ∧
    (processPage c6wEnv 0 =
      ([.logInvalid 1, .saveRaw 1 "junk".data, .saveState 1, .sleepBase], false) ∧
    kbAppends (processPage c6wEnv 0).1 = [] ∧
    rawWrites (processPage c6wEnv 0).1 = [(1, "junk".data)] ∧
    savedStates (processPage c6wEnv 0).1 = [1]) :=
  ⟨⟨by decide, rfl, by decide⟩,
    c6_rejected_payload c6wEnv 0 "junk".data (by decide) rfl (by decide)⟩

/-! ## C10 — rate-limited on every attempt -/

/-- C10: when every one of the `max_retries = 3` attempts for page
`idx + 1` is rate-limited, the page's trace is exactly the three backoff
sleeps and the base sleep — no exception propagates (flag `false`), no
progress is persisted, nothing is written to the knowledge base or a debug
artifact — and the loop continues with the remaining pages unchanged. -/
theorem c10_rate_limit_exhaustion (env : Env) (idx : Nat) (rest : List Nat)
    (hlen : 50 ≤ (env.pages.getD idx []).length)
    (hrl : ∀ a, a < 3 → env.gen (idx + 1) a = .rateLimited) :
    processPage env idx =
      ([.sleepBackoff 1, .sleepBackoff 2, .sleepBackoff 4, .sleepBase], false) ∧
    savedStates (processPage env idx).1 = [] ∧
    kbAppends (processPage env idx).1 = [] ∧
    rawWrites (processPage env idx).1 = [] ∧
    processPages env (idx :: rest) =
      ([.sleepBackoff 1, .sleepBackoff 2, .sleepBackoff 4, .sleepBase] ++
        (processPages env rest).1, (processPages env rest).2) := by
  have hp : processPage env idx =
      ([.sleepBackoff 1, .sleepBackoff 2, .sleepBackoff 4, .sleepBase], false) := by
    simp [processPage, range_maxRetries, runAttempts,
      hrl 0 (by omega), hrl 1 (by omega), hrl 2 (by omega)]
    all_goals exact page_long (by simpa using hlen)
  refine ⟨hp, by rw [hp]; rfl, by rw [hp]; rfl, by rw [hp]; rfl, ?_⟩
  simp [processPages, hp]

/-- Witness for `c10_rate_limit_exhaustion` on a two-page document. -/
theorem c10_rate_limit_exhaustion_witness :
    (50 ≤ (c10wEnv.pages.getD 0 []).length ∧
      ∀ a, a < 3 → c10wEnv.gen 1 a = .rateLimited) ∧
    (processPage c10wEnv 0 =
      ([.sleepBackoff 1, .sleepBackoff 2, .sleepBackoff 4, .sleepBase], false) ∧
    savedStates (processPage c10wEnv 0).1 = [] ∧
    kbAppends (processPage c10wEnv 0).1 = [] ∧
    rawWrites (processPage c10wEnv 0).1 = [] ∧
    processPages c10wEnv [0, 1] =
      ([.sleepBackoff 1, .sleepBackoff 2, .sleepBackoff 4, .sleepBase] ++
        (processPages c10wEnv [1]).1, (processPages c10wEnv [1]).2)) :=
  ⟨⟨by decide, fun _ _ => rfl⟩,
    c10_rate_limit_exhaustion c10wEnv 0 [1] (by decide) (fun _ _ => rfl)⟩

/-! ## Validator helper lemmas -/

/-- The early-exit loop of `check_balanced_parens` agrees, from any state with
a nonnegative counter, with the pure scan: it returns `true` iff the counter
never goes negative and is zero at the end. -/
theorem cbpGo_eq_scan (l : List Char) :
    ∀ (count : Int) (inString escapeNext : Bool), 0 ≤ count →
    cbpGo count inString escapeNext l =
      (scanNonneg ⟨count, inString, escapeNext⟩ l &&
        ((scanFrom ⟨count, inString, escapeNext⟩ l).count == 0)) := by
  induction l with
  | nil =>
    intro c i e h
    simp [cbpGo, scanNonneg, scanFrom]
  | cons ch rest ih =>
    intro c i e h
    cases e with
    | true =>
      simp [cbpGo, scanNonneg, scanFrom, scanStep, h, ih _ _ _ h]
    | false =>
      by_cases hb : ch = '\\'
      · simp [cbpGo, hb, scanNonneg, scanFrom, scanStep, h, ih _ _ _ h]
      · by_cases hq : ch = '"'
        · simp [cbpGo, hb, hq, scanNonneg, scanFrom, scanStep, h, ih _ _ _ h]
        · cases i with
          | true =>
            simp [cbpGo, hb, hq, scanNonneg, scanFrom, scanStep, h, ih _ _ _ h]
          | false =>
            by_cases ho : ch = '('
            · have h1 : (0 : Int) ≤ c + 1 := by omega
              simp [cbpGo, hb, hq, ho, scanNonneg, scanFrom, scanStep, h1,
                ih _ _ _ h1]
            · by_cases hc : ch = ')'
              · by_cases hneg : c - 1 < 0
                · simp [cbpGo, hb, hq, ho, hc, hneg, scanNonneg, scanStep]
                  omega
                · have h1 : (0 : Int) ≤ c - 1 := by omega
                  simp [cbpGo, hb, hq, ho, hc, hneg, scanNonneg, scanFrom,
                    scanStep, h1, ih _ _ _ h1]
              · simp [cbpGo, hb, hq, ho, hc, scanNonneg, scanFrom, scanStep, h,
                  ih _ _ _ h]

theorem splitLines_of_no_newline {l : List Char} (h : '\n' ∉ l) :
    splitLines l = [l] := by
  induction l with
  | nil => rfl
  | cons c rest ih =>
    have hc : ¬c = '\n' := fun e => h (by simp [e])
    have hr : '\n' ∉ rest := fun m => h (List.mem_cons_of_mem _ m)
    simp [splitLines, hc, ih hr]

theorem pyStrip_subset {l : List Char} : ∀ c ∈ pyStrip l, c ∈ l := by
  intro c hc
  have h1 : List.Sublist ((l.dropWhile isPySpace).rdropWhile isPySpace)
      (l.dropWhile isPySpace) := ( List.rdropWhile_prefix _ _).sublist
  have h2 : List.Sublist (l.dropWhile isPySpace) l := List.dropWhile_sublist _
  exact (h1.trans h2).subset hc

/-- A prefix of a list whose head does not satisfy `p` is itself untouched by
`dropWhile p`. -/
theorem dropWhile_eq_self_of_isPrefixOf {p : Char → Bool} {x d : List Char}
    (hx : x <+: d) (hd : d.dropWhile p = d) : x.dropWhile p = x := by
  cases x with
  | nil => rfl
  | cons c t =>
    cases d with
    | nil => simp at hx
    | cons c2 t2 =>
      obtain ⟨rfl, -⟩ := List.cons_prefix_cons.mp hx
      by_cases hp : p c
      · rw [List.dropWhile_cons, if_pos hp] at hd
        have := (List.dropWhile_sublist (l := t2) p).length_le
        have := congrArg List.length hd
        simp at this
        omega
      · rw [List.dropWhile_cons, if_neg hp]

theorem pyStrip_idem (l : List Char) : pyStrip (pyStrip l) = pyStrip l := by
  unfold pyStrip
  have hd : (l.dropWhile isPySpace).dropWhile isPySpace = l.dropWhile isPySpace :=
    dropWhile_eq_self_of_isPrefixOf (List.prefix_refl _)
      (by
        cases hdw : l.dropWhile isPySpace with
        | nil => rfl
        | cons c t =>
          have : ¬isPySpace c = true := by
            have := List.head?_dropWhile_not isPySpace l
            rw [hdw] at this
            simpa using this
          rw [List.dropWhile_cons, if_neg this])
  have h1 : ((l.dropWhile isPySpace).rdropWhile isPySpace).dropWhile isPySpace =
      (l.dropWhile isPySpace).rdropWhile isPySpace :=
    dropWhile_eq_self_of_isPrefixOf ( List.rdropWhile_prefix _ _) hd
  rw [h1, List.rdropWhile_idempotent]

/-- Every error `ppsGo` ever returns is the unterminated-string error. -/
theorem ppsGo_error (l : List Char) (i : Nat) (acc : List Char) (e : PyErr)
    (h : ppsGo l i acc = .error e) : e = .valueError "Unterminated string" := by
  induction l, i, acc using ppsGo.induct with
  | case1 i acc =>
    simp [ppsGo] at h
    exact h.symm
  | case2 i acc =>
    simp [ppsGo] at h
  | case3 c i acc hc =>
    simp [ppsGo, hc] at h
    exact h.symm
  | case4 rest i acc ih =>
    simp only [ppsGo, if_pos rfl] at h
    exact ih h
  | case5 c2 rest i acc hc2 =>
    simp [ppsGo, hc2] at h
  | case6 c2 rest i acc hq ih =>
    simp only [ppsGo, if_neg hq, if_pos rfl] at h
    exact ih h
  | case7 c c2 rest i acc hc hcb ih =>
    simp only [ppsGo, if_neg hc, if_neg hcb] at h
    exact ih h

/-- `parse_prolog_string` on input not starting with a quote: the distinct
must-start-with-quote error. -/
theorem parse_prolog_string_not_quote {s : List Char} (h : s.head? ≠ some '"') :
    parse_prolog_string s = .error (.valueError "String must start with quote") := by
  cases s with
  | nil => rfl
  | cons c rest =>
    have hc : ¬c = '"' := fun e => h (by simp [e])
    unfold parse_prolog_string
    split
    · rename_i rest2 heq
      injection heq with h1 _
      exact absurd h1 hc
    · rfl

/-! ## C5 — balanced-parenthesis check -/

/-- C5: `check_balanced_parens` returns true exactly when the scan — which
counts parentheses only outside quoted-string spans (`scanStep`) — never lets
the counter go negative and ends with counter zero; in particular
`concept(a, 1, "b(c)").` validates as true (the parens inside the string are
not counted) and `concept(a, 1)).` validates as false (the extra close paren
drives the counter negative). -/
theorem c5_balanced_paren_semantics :
    (∀ l : List Char, check_balanced_parens l =
      (scanNonneg scanInit l && ((scanFrom scanInit l).count == 0))) ∧
    validate_prolog_syntax "concept(a, 1, \"b(c)\").".data = true ∧
    validate_prolog_syntax "concept(a, 1)).".data = false := by
  refine ⟨fun l => cbpGo_eq_scan l 0 false false le_rfl, by decide, by decide⟩

/-! ## C7 — the validator is total and never raises -/

theorem validate_factE_eq (l : List Char) :
    validate_factE l = .ok (validate_fact l) := by
  unfold validate_factE validate_fact
  dsimp only
  repeat' first | rfl | split

theorem validateLinesE_eq (ls : List (List Char)) :
    validateLinesE ls = .ok (validateLines ls) := by
  induction ls with
  | nil => rfl
  | cons line rest ih =>
    simp only [validateLinesE, validateLines, validate_factE_eq]
    split_ifs with h1 h2
    · exact ih
    · rfl
    · exact ih

/-- C7: the exception-discipline translation of `validate_prolog_syntax`
always terminates normally with `ok` of the boolean the validator computes —
for every input, malformed or not, no exception escapes: unterminated-string
and invalid-syntax conditions only ever surface as a `false` result or a
diagnostic message. -/
theorem c7_validator_never_raises (s : List Char) :
    validate_prolog_syntaxE s = Except.ok ( validate_prolog_syntax s) :=
  validateLinesE_eq _

/-! ## C8 — unterminated strings

The universal claim is false: in `concept(a)", b).` the quote opens an
unterminated string *after* the parentheses are already balanced, the
parenthesis scan ends with count zero (parens after the quote are ignored,
but none are needed), and the shape regex — which knows nothing about
quotes — still matches, so the validator accepts the line. -/

/-- C8 (counterexample): the line `concept(a)", b).` decomposes as
`concept(a)` ++ `", b).`; the suffix starting at the quote is an unterminated
string (the sub-parser fails with the unterminated-string error, and the scan
of the whole line ends inside a string), yet `validate_prolog_syntax` returns
`true` — refuting "for every line containing an unterminated quoted string,
validation returns false". -/
theorem c8_counterexample :
    "concept(a)".data ++ "\", b).".data = "concept(a)\", b).".data ∧
    parse_prolog_string "\", b).".data =
      .error (.valueError "Unterminated string") ∧
    (scanFrom scanInit "concept(a)\", b).".data).inString = true ∧
    validate_prolog_syntax "concept(a)\", b).".data = true :=
  ⟨by decide, rfl, by decide, by decide⟩

/-- C8 (amended): for every line whose (stripped) scan ends inside a string
with a positive open-paren count — i.e. the unterminated quoted string starts
inside the fact's argument parentheses, as in any `pred(..., "unclosed` line —
validation returns false; and the string sub-parser's failures are the two
distinct errors: on input starting with a quote any failure is the
unterminated-string error, and on input not starting with a quote the failure
is the must-start-with-quote error. -/
theorem c8_unterminated_string (l : List Char)
    (hnl : '\n' ∉ l)
    (hne : pyStrip l ≠ [])
    (hpc : (pyStrip l).head? ≠ some '%')
    (_hin : (scanFrom scanInit (pyStrip l)).inString = true)
    (hct : (scanFrom scanInit (pyStrip l)).count ≠ 0) :
    validate_prolog_syntax l = false ∧
    (∀ s e, parse_prolog_string s = .error e →
      (s.head? = some '"' → e = .valueError "Unterminated string") ∧
      (s.head? ≠ some '"' → e = .valueError "String must start with quote")) := by
  constructor
  · have hb : check_balanced_parens (pyStrip l) = false := by
      rw [show check_balanced_parens (pyStrip l) =
        (scanNonneg scanInit (pyStrip l) &&
          ((scanFrom scanInit (pyStrip l)).count == 0)) from
        cbpGo_eq_scan _ 0 false false le_rfl]
      simp [hct]
    have hnl2 : '\n' ∉ pyStrip l := fun m => hnl (pyStrip_subset _ m)
    unfold validate_prolog_syntax
    rw [splitLines_of_no_newline hnl2]
    simp [validateLines, validate_fact, pyStrip_idem, hne, hpc, hb]
  · intro s e he
    constructor
    · intro hh
      cases s with
      | nil => simp at hh
      | cons c rest =>
        simp only [List.head?_cons, Option.some.injEq] at hh
        subst hh
        rw [show parse_prolog_string ('"' :: rest) = ppsGo rest 1 [] from rfl] at he
        exact ppsGo_error _ _ _ _ he
    · intro hh
      have h3 := Except.error.inj ((parse_prolog_string_not_quote hh).symm.trans he)
      exact h3.symm

/-- Witness for `c8_unterminated_string` at the module's own test line
`concept(test, 1, "unclosed string`. -/
theorem c8_unterminated_string_witness :
    ('\n' ∉ c8wLine ∧ pyStrip c8wLine ≠ [] ∧
      (pyStrip c8wLine).head? ≠ some '%' ∧
      (scanFrom scanInit (pyStrip c8wLine)).inString = true ∧
      (scanFrom scanInit (pyStrip c8wLine)).count ≠ 0) ∧
    ( validate_prolog_syntax c8wLine = false ∧
      (∀ s e, parse_prolog_string s = .error e →
        (s.head? = some '"' → e = .valueError "Unterminated string") ∧
        (s.head? ≠ some '"' → e = .valueError "String must start with quote"))) :=
  ⟨⟨by decide, by decide, by decide, by decide, by decide⟩,
    c8_unterminated_string c8wLine (by decide) (by decide) (by decide)
      (by decide) (by decide)⟩

/-! ## C4 — helper lemmas for the `concept(X, N, "S").` family -/

theorem snakeChar_not_special {c : Char} (h : isSnakeChar c = true) :
    c ≠ '(' ∧ c ≠ ')' ∧ c ≠ '"' ∧ c ≠ '\\' := by
  refine ⟨?_, ?_, ?_, ?_⟩ <;> rintro rfl <;> exact absurd h (by decide)

theorem snakeChar_not_newline {c : Char} (h : isSnakeChar c = true) : c ≠ '\n' := by
  rintro rfl; exact absurd h (by decide)

theorem numTok_not_special {c : Char} (h : isNumChar c = true ∨ c = '-') :
    c ≠ '(' ∧ c ≠ ')' ∧ c ≠ '"' ∧ c ≠ '\\' := by
  rcases h with h | rfl
  · refine ⟨?_, ?_, ?_, ?_⟩ <;> rintro rfl <;> exact absurd h (by decide)
  · refine ⟨?_, ?_, ?_, ?_⟩ <;> decide

theorem numTok_not_newline {c : Char} (h : isNumChar c = true ∨ c = '-') :
    c ≠ '\n' := by
  rcases h with h | rfl
  · rintro rfl; exact absurd h (by decide)
  · decide

theorem isSnakeIdent_mem {X : List Char} (hX : isSnakeIdent X = true) :
    ∀ c ∈ X, isSnakeChar c = true := by
  rcases X with _ | ⟨x0, xt⟩
  · exact absurd hX (by decide)
  · intro c hc
    simp only [isSnakeIdent, Bool.and_eq_true, List.all_eq_true] at hX
    exact hX.2 c hc

theorem isIntToken_mem {D : List Char} (hD : isIntToken D = true) :
    ∀ c ∈ D, isNumChar c = true ∨ c = '-' := by
  rcases D with _ | ⟨d0, dt⟩
  · exact absurd hD (by decide)
  · intro c hc
    by_cases hm : d0 = '-'
    · subst hm
      rw [show isIntToken ('-' :: dt)
          = if ('-' : Char) = '-' then (!dt.isEmpty && dt.all isNumChar)
            else ('-' :: dt).all isNumChar from rfl, if_pos rfl] at hD
      simp only [Bool.and_eq_true, List.all_eq_true] at hD
      rcases List.mem_cons.mp hc with rfl | hmem
      · exact Or.inr rfl
      · exact Or.inl (hD.2 c hmem)
    · rw [show isIntToken (d0 :: dt)
          = if d0 = '-' then (!dt.isEmpty && dt.all isNumChar)
            else (d0 :: dt).all isNumChar from rfl, if_neg hm,
        List.all_eq_true] at hD
      exact Or.inl (hD c hc)

/-- Characters that are neither parens, quote nor backslash leave the
balanced-paren loop's state unchanged. -/
theorem cbpGo_skip {l : List Char}
    (h : ∀ c ∈ l, c ≠ '(' ∧ c ≠ ')' ∧ c ≠ '"' ∧ c ≠ '\\') :
    ∀ (count : Int) (inString : Bool) (rest : List Char),
      cbpGo count inString false (l ++ rest) = cbpGo count inString false rest := by
  induction l with
  | nil => intro c i r; rfl
  | cons ch t ih =>
    intro c i r
    obtain ⟨h1, h2, h3, h4⟩ := h ch (by simp)
    have ht : ∀ c ∈ t, c ≠ '(' ∧ c ≠ ')' ∧ c ≠ '"' ∧ c ≠ '\\' :=
      fun c hc => h c (List.mem_cons_of_mem _ hc)
    simp only [List.cons_append]
    simp [cbpGo, h1, h2, h3, h4, ih ht]

theorem cbpGo_step_open (count : Int) (M : List Char) :
    cbpGo count false false ('(' :: M) = cbpGo (count + 1) false false M := by
  simp [cbpGo, show ¬('(' : Char) = '\\' from by decide,
    show ¬('(' : Char) = '"' from by decide]

theorem cbpGo_step_quote (count : Int) (inString : Bool) (M : List Char) :
    cbpGo count inString false ('"' :: M) = cbpGo count (!inString) false M := by
  simp [cbpGo, show ¬('"' : Char) = '\\' from by decide]

/-- Inside a string whose internal quotes are doubled and which is free of
backslashes, the loop skips to the closing quote without touching the
counter. -/
theorem cbpGo_string :
    ∀ (n : Nat) (S : List Char), S.length ≤ n → quotesDoubled S = true →
      '\\' ∉ S → ∀ (count : Int) (rest : List Char),
      cbpGo count true false (S ++ '"' :: rest) = cbpGo count false false rest := by
  intro n
  induction n with
  | zero =>
    intro S hl hq hb c r
    have : S = [] := List.eq_nil_of_length_eq_zero (Nat.le_zero.mp hl)
    subst this
    simp [cbpGo_step_quote]
  | succ n ihn =>
    intro S hl hq hb c r
    rcases S with _ | ⟨ch, t⟩
    · simp [cbpGo_step_quote]
    · by_cases hc : ch = '"'
      · subst hc
        rcases t with _ | ⟨c2, t2⟩
        · exact absurd hq (by decide)
        · by_cases hc2 : c2 = '"'
          · subst hc2
            have hq2 : quotesDoubled t2 = true := by
              unfold quotesDoubled at hq
              simpa using hq
            have hb2 : '\\' ∉ t2 := fun m => hb (by simp [m])
            have hl2 : t2.length ≤ n := by simp at hl; omega
            simp only [List.cons_append]
            rw [cbpGo_step_quote, cbpGo_step_quote]
            exact ihn t2 hl2 hq2 hb2 c r
          · unfold quotesDoubled at hq
            simp [hc2] at hq
      · have hbs : ¬ch = '\\' := fun e => hb (by simp [e])
        have hq2 : quotesDoubled t = true := by
          unfold quotesDoubled at hq
          rwa [if_neg hc] at hq
        have hb2 : '\\' ∉ t := fun m => hb (by simp [m])
        have hl2 : t.length ≤ n := by simp at hl; omega
        simp only [List.cons_append]
        rw [show cbpGo c true false (ch :: (t ++ '"' :: r))
            = cbpGo c true false (t ++ '"' :: r) from by
          simp [cbpGo, hbs, hc]]
        exact ihn t hl2 hq2 hb2 c r

theorem takeWhile_append_of_all {p : Char → Bool} {l1 : List Char}
    (h : ∀ c ∈ l1, p c = true) (l2 : List Char) :
    (l1 ++ l2).takeWhile p = l1 ++ l2.takeWhile p := by
  induction l1 with
  | nil => rfl
  | cons c t ih =>
    have hc := h c (by simp)
    have ht : ∀ c ∈ t, p c = true := fun c m => h c (List.mem_cons_of_mem _ m)
    simp [List.takeWhile_cons, hc, ih ht]

theorem dropWhile_append_of_all {p : Char → Bool} {l1 : List Char}
    (h : ∀ c ∈ l1, p c = true) (l2 : List Char) :
    (l1 ++ l2).dropWhile p = l2.dropWhile p := by
  induction l1 with
  | nil => rfl
  | cons c t ih =>
    have hc := h c (by simp)
    have ht : ∀ c ∈ t, p c = true := fun c m => h c (List.mem_cons_of_mem _ m)
    simp [List.dropWhile_cons, hc, ih ht]

/-- `FACT_PATTERN` on a well-shaped line `pred(args).`: identifier head, no
newline in the argument span. -/
theorem factPatternMatch_shape (p0 : Char) (pt args : List Char)
    (hstart : isIdentStart p0 = true)
    (hident : ∀ c ∈ p0 :: pt, isIdentChar c = true)
    (hnl : '\n' ∉ args) :
    factPatternMatch ((p0 :: pt) ++ '(' :: (args ++ [')', '.'])) =
      some (p0 :: pt, args) := by
  have hpt : ∀ c ∈ pt, isIdentChar c = true :=
    fun c m => hident c (List.mem_cons_of_mem _ m)
  have hp0 : isIdentChar p0 = true := hident p0 (by simp)
  have hcont : args.contains '\n' = false := by simpa using hnl
  unfold factPatternMatch
  have hrev : (((p0 :: pt) ++ '(' :: (args ++ [')', '.'])).reverse)
      = '.' :: ')' :: (args.reverse ++ '(' :: (pt.reverse ++ [p0])) := by
    simp
  rw [hrev]
  simp [List.dropWhile_cons, List.takeWhile_cons,
    takeWhile_append_of_all hpt, dropWhile_append_of_all hpt,
    hp0, hstart, hcont,
    show isPySpace '.' = false from rfl, show isPySpace ')' = false from rfl,
    show isPySpace '(' = false from rfl, show isIdentChar '(' = false from rfl]
  exact hnl

/-! ## C4 — the `concept(X, N, "S").` payload family

The claim quantifies over "any text S in which every internal quote is
doubled".  For S containing a backslash immediately before the closing quote
(e.g. S = `\`), the scanner's `escape_next` handling skips the closing quote,
the scan never leaves the string, the parenthesis count ends at 1, and the
line is rejected — so the claim needs S to be backslash-free. -/

/-- C4 (counterexample): X = `a`, N = `1`, S = `\` (a single backslash: it
contains no quotes, so "every internal quote is doubled" holds vacuously).
The payload `concept(a, 1, "\").` fails validation. -/
theorem c4_counterexample :
    isSnakeIdent ['a'] = true ∧ isIntToken ['1'] = true ∧
    quotesDoubled ['\\'] = true ∧
    mkConceptLine ['a'] ['1'] ['\\'] = "concept(a, 1, \"\\\").".data ∧
    validate_prolog_syntax (mkConceptLine ['a'] ['1'] ['\\']) = false :=
  ⟨by decide, by decide, by decide, by decide, by decide⟩

/-- C4 (amended): for every single-line payload `concept(X, N, "S").` where
`X` is a snake_case identifier, `N` an integer token, and `S` any
newline-free, backslash-free text in which every internal quote is doubled,
`validate_prolog_syntax` returns true. -/
theorem c4_concept_line_valid (X D S : List Char)
    (hX : isSnakeIdent X = true) (hD : isIntToken D = true)
    (hS : quotesDoubled S = true) (hbs : '\\' ∉ S) (hnl : '\n' ∉ S) :
    validate_prolog_syntax (mkConceptLine X D S) = true := by
  have hXc := isSnakeIdent_mem hX
  have hDc := isIntToken_mem hD
  have hX4 : ∀ c ∈ X, c ≠ '(' ∧ c ≠ ')' ∧ c ≠ '"' ∧ c ≠ '\\' :=
    fun c hc => snakeChar_not_special (hXc c hc)
  have hD4 : ∀ c ∈ D, c ≠ '(' ∧ c ≠ ')' ∧ c ≠ '"' ∧ c ≠ '\\' :=
    fun c hc => numTok_not_special (hDc c hc)
  have hsplit : mkConceptLine X D S
      = ('c' :: 'o' :: 'n' :: 'c' :: 'e' :: 'p' :: 't' :: '(' ::
          (X ++ ',' :: ' ' :: (D ++ ',' :: ' ' :: '"' :: (S ++ ['"', ')'])))) ++ ['.'] := by
    simp [mkConceptLine]
  have hstrip : pyStrip (mkConceptLine X D S) = mkConceptLine X D S := by
    unfold pyStrip
    rw [show (mkConceptLine X D S).dropWhile isPySpace = mkConceptLine X D S from rfl,
      hsplit, List.rdropWhile_concat_neg _ _ _ (by decide)]
  have hxn : '\n' ∉ X := fun h => snakeChar_not_newline (hXc _ h) rfl
  have hdn : '\n' ∉ D := fun h => numTok_not_newline (hDc _ h) rfl
  have hnlL : '\n' ∉ mkConceptLine X D S := by
    intro hm
    simp +decide [mkConceptLine, hxn, hdn, hnl] at hm
  have hbal : check_balanced_parens (mkConceptLine X D S) = true := by
    unfold check_balanced_parens
    calc cbpGo 0 false false (mkConceptLine X D S)
        = cbpGo 0 false false ("concept".data ++ ('(' ::
            (X ++ (", ".data ++ (D ++ (", ".data ++ ('"' ::
              (S ++ ('"' :: ')' :: '.' :: []))))))))) := rfl
      _ = cbpGo 0 false false ('(' :: (X ++ (", ".data ++ (D ++ (", ".data ++
            ('"' :: (S ++ ('"' :: ')' :: '.' :: [])))))))) :=
          cbpGo_skip (by decide) 0 false _
      _ = cbpGo 1 false false (X ++ (", ".data ++ (D ++ (", ".data ++
            ('"' :: (S ++ ('"' :: ')' :: '.' :: []))))))) := cbpGo_step_open 0 _
      _ = cbpGo 1 false false (", ".data ++ (D ++ (", ".data ++
            ('"' :: (S ++ ('"' :: ')' :: '.' :: [])))))) := cbpGo_skip hX4 1 false _
      _ = cbpGo 1 false false (D ++ (", ".data ++
            ('"' :: (S ++ ('"' :: ')' :: '.' :: []))))) := cbpGo_skip (by decide) 1 false _
      _ = cbpGo 1 false false (", ".data ++
            ('"' :: (S ++ ('"' :: ')' :: '.' :: [])))) := cbpGo_skip hD4 1 false _
      _ = cbpGo 1 false false ('"' :: (S ++ ('"' :: ')' :: '.' :: []))) :=
          cbpGo_skip (by decide) 1 false _
      _ = cbpGo 1 true false (S ++ ('"' :: ')' :: '.' :: [])) := by
          simp [cbpGo_step_quote]
      _ = cbpGo 1 false false (')' :: '.' :: []) :=
          cbpGo_string S.length S le_rfl hS hbs 1 _
      _ = true := by decide
  have hnlargs : '\n' ∉ (X ++ ',' :: ' ' :: (D ++ ',' :: ' ' :: '"' :: S)) ++ ['"'] := by
    intro hm
    simp +decide [hxn, hdn, hnl] at hm
  have hpat : factPatternMatch (mkConceptLine X D S)
      = some ("concept".data,
          (X ++ ',' :: ' ' :: (D ++ ',' :: ' ' :: '"' :: S)) ++ ['"']) := by
    have hform : mkConceptLine X D S
        = (('c' : Char) :: "oncept".data) ++ '(' ::
            (((X ++ ',' :: ' ' :: (D ++ ',' :: ' ' :: '"' :: S)) ++ ['"']) ++ [')', '.']) := by
      simp [mkConceptLine]
    rw [hform]
    exact factPatternMatch_shape 'c' "oncept".data _ (by decide) (by decide) hnlargs
  have hne0 : ¬mkConceptLine X D S = [] := by rw [hsplit]; simp
  have hpc0 : ¬(mkConceptLine X D S).head? = some '%' := by
    rw [show (mkConceptLine X D S).head? = some 'c' from rfl]
    simp
  have hlast : (List.rdropWhile isPySpace (mkConceptLine X D S)).getLast? = some '.' := by
    rw [hsplit, List.rdropWhile_concat_neg _ _ _ (by decide), List.getLast?_concat]
  have hfact : (validate_fact (mkConceptLine X D S)).1 = true := by
    simp [validate_fact, hstrip, hbal, hpat, hne0, hpc0, hlast,
      show "concept".data ∈ VALID_PREDICATES from by decide]
  unfold validate_prolog_syntax
  rw [hstrip, splitLines_of_no_newline hnlL]
  simp [validateLines, hstrip, hfact, hne0, hpc0]

/-- Witness for `c4_concept_line_valid`: the payload
`concept(nash_eq, 42, "a ""b"" (c)").`. -/
theorem c4_concept_line_valid_witness :
    (isSnakeIdent "nash_eq".data = true ∧ isIntToken "42".data = true ∧
      quotesDoubled "a \"\"b\"\" (c)".data = true ∧
      '\\' ∉ "a \"\"b\"\" (c)".data ∧ '\n' ∉ "a \"\"b\"\" (c)".data) ∧
    validate_prolog_syntax
      (mkConceptLine "nash_eq".data "42".data "a \"\"b\"\" (c)".data) = true :=
  ⟨⟨by decide, by decide, by decide, by decide, by decide⟩,
    c4_concept_line_valid _ _ _ (by decide) (by decide) (by decide)
      (by decide) (by decide)⟩

/-! ## C9 — helper lemmas about lines and stripping -/

theorem splitLines_ne_nil (t : List Char) : splitLines t ≠ [] := by
  cases t with
  | nil => simp [splitLines]
  | cons c r =>
    simp only [splitLines]
    split
    · simp
    · split <;> simp

theorem splitLines_append (a b : List Char) :
    splitLines (a ++ b) = joinLast (splitLines a) (splitLines b) := by
  induction a with
  | nil =>
    cases hb : splitLines b with
    | nil => exact absurd hb (splitLines_ne_nil b)
    | cons h t => simp [splitLines, joinLast, hb]
  | cons c a2 ih =>
    by_cases hc : c = '\n'
    · subst hc
      have e1 : ∀ (M : List Char), splitLines ('\n' :: M) = [] :: splitLines M := by
        intro M; simp [splitLines]
      rw [List.cons_append, e1, e1, ih]
      cases ha : splitLines a2 with
      | nil => exact absurd ha (splitLines_ne_nil a2)
      | cons h t => rfl
    · have e3 : ∀ (M : List Char), splitLines (c :: M)
          = match splitLines M with
            | [] => [[c]]
            | h :: t => (c :: h) :: t := by
        intro M; simp [splitLines, hc]
      rw [List.cons_append, e3, e3, ih]
      cases ha : splitLines a2 with
      | nil => exact absurd ha (splitLines_ne_nil a2)
      | cons h t =>
        cases t with
        | nil =>
          cases hbb : splitLines b with
          | nil => exact absurd hbb (splitLines_ne_nil b)
          | cons hb tb => rfl
        | cons h2 t2 => rfl

theorem joinLast_concat (A : List (List Char)) (x hB : List Char)
    (tB : List (List Char)) :
    joinLast (A ++ [x]) (hB :: tB) = A ++ (x ++ hB) :: tB := by
  induction A with
  | nil => rfl
  | cons z zs ih =>
    cases zs with
    | nil => rfl
    | cons z2 zs2 =>
      simp only [List.cons_append] at ih ⊢
      rw [show joinLast (z :: z2 :: (zs2 ++ [x])) (hB :: tB)
          = z :: joinLast (z2 :: (zs2 ++ [x])) (hB :: tB) from rfl, ih]

theorem mem_of_mem_splitLines :
    ∀ {t l : List Char}, l ∈ splitLines t → ∀ {c}, c ∈ l → c ∈ t := by
  intro t
  induction t with
  | nil =>
    intro l hl c hc
    simp [splitLines] at hl
    subst hl
    simp at hc
  | cons c0 t2 ih =>
    intro l hl c hc
    by_cases h0 : c0 = '\n'
    · subst h0
      simp only [splitLines, if_pos rfl] at hl
      rcases List.mem_cons.mp hl with rfl | hl2
      · simp at hc
      · exact List.mem_cons_of_mem _ (ih hl2 hc)
    · simp only [splitLines, if_neg h0] at hl
      cases ht : splitLines t2 with
      | nil => exact absurd ht (splitLines_ne_nil _)
      | cons h t =>
        rw [ht] at hl
        rcases List.mem_cons.mp hl with rfl | hl2
        · rcases List.mem_cons.mp hc with rfl | hc2
          · simp
          · exact List.mem_cons_of_mem _ (ih (by rw [ht]; simp) hc2)
        · exact List.mem_cons_of_mem _
            (ih (by rw [ht]; exact List.mem_cons_of_mem _ hl2) hc)

theorem dropWhile_append_left (p : Char → Bool) (x z : List Char) :
    (x ++ z).dropWhile p =
      if x.dropWhile p = [] then z.dropWhile p else x.dropWhile p ++ z := by
  induction x with
  | nil => simp
  | cons c t ih =>
    by_cases hc : p c = true
    · simpa [List.dropWhile_cons, hc] using ih
    · simp [List.dropWhile_cons, hc]

theorem rdropWhile_append_rtakeWhile (p : Char → Bool) (l : List Char) :
    l.rdropWhile p ++ l.rtakeWhile p = l := by
  simp only [List.rdropWhile, List.rtakeWhile]
  rw [← List.reverse_append, List.takeWhile_append_dropWhile, List.reverse_reverse]

theorem rdropWhile_append_of_all {w : List Char}
    (hw : ∀ c ∈ w, isPySpace c = true) (y : List Char) :
    (y ++ w).rdropWhile isPySpace = y.rdropWhile isPySpace := by
  simp only [List.rdropWhile, List.reverse_append]
  rw [dropWhile_append_of_all (fun c m => hw c (List.mem_reverse.mp m))]

theorem pyStrip_prepend_ws {w : List Char}
    (hw : ∀ c ∈ w, isPySpace c = true) (x : List Char) :
    pyStrip (w ++ x) = pyStrip x := by
  unfold pyStrip
  rw [dropWhile_append_of_all hw]

theorem pyStrip_append_ws {w : List Char}
    (hw : ∀ c ∈ w, isPySpace c = true) (x : List Char) :
    pyStrip (x ++ w) = pyStrip x := by
  unfold pyStrip
  rw [dropWhile_append_left]
  split
  · next hnil =>
    rw [List.dropWhile_eq_nil_iff.mpr hw, hnil]
  · next hne =>
    rw [rdropWhile_append_of_all hw]

theorem validateLines_of_blank (ls : List (List Char))
    (h : ∀ l ∈ ls, blankOrComment l = true) : validateLines ls = true := by
  induction ls with
  | nil => rfl
  | cons line rest ih =>
    have hb := h line (List.mem_cons_self _ _)
    unfold blankOrComment at hb
    have ht := ih (fun l m => h l (List.mem_cons_of_mem _ m))
    unfold validateLines
    simp [hb, ht]

/-! ## C9 — comment/blank-only payloads -/

/-- Stripping a whitespace prefix preserves "every line is blank or a
comment". -/
theorem blank_lines_append_left {w t : List Char}
    (hw : ∀ c ∈ w, isPySpace c = true)
    (H : ∀ l ∈ splitLines (w ++ t), blankOrComment l = true) :
    ∀ l ∈ splitLines t, blankOrComment l = true := by
  intro l hl
  cases hd : splitLines t with
  | nil => exact absurd hd (splitLines_ne_nil _)
  | cons hd0 td =>
    have hBw : splitLines w = (splitLines w).dropLast ++
        [(splitLines w).getLast (splitLines_ne_nil w)] :=
      (List.dropLast_append_getLast _).symm
    have hjoin : splitLines (w ++ t)
        = (splitLines w).dropLast ++
          (((splitLines w).getLast (splitLines_ne_nil w) ++ hd0) :: td) := by
      rw [splitLines_append, hd]
      conv_lhs => rw [hBw]
      rw [joinLast_concat]
    rw [hd] at hl
    rcases List.mem_cons.mp hl with rfl | hl2
    · have hx : blankOrComment
          ((splitLines w).getLast (splitLines_ne_nil w) ++ l) = true := by
        apply H
        rw [hjoin]
        simp
      have hxw : ∀ c ∈ (splitLines w).getLast (splitLines_ne_nil w),
          isPySpace c = true :=
        fun c mc => hw c (mem_of_mem_splitLines (List.getLast_mem _) mc)
      unfold blankOrComment at hx ⊢
      rwa [pyStrip_prepend_ws hxw] at hx
    · apply H
      rw [hjoin]
      exact List.mem_append_right _ (List.mem_cons_of_mem _ hl2)

/-- Stripping a whitespace suffix preserves "every line is blank or a
comment". -/
theorem blank_lines_append_right {u t : List Char}
    (hu : ∀ c ∈ u, isPySpace c = true)
    (H : ∀ l ∈ splitLines (t ++ u), blankOrComment l = true) :
    ∀ l ∈ splitLines t, blankOrComment l = true := by
  intro l hl
  cases hLu : splitLines u with
  | nil => exact absurd hLu (splitLines_ne_nil _)
  | cons hu0 tu =>
    have hBt : splitLines t = (splitLines t).dropLast ++
        [(splitLines t).getLast (splitLines_ne_nil t)] :=
      (List.dropLast_append_getLast _).symm
    have hjoin : splitLines (t ++ u)
        = (splitLines t).dropLast ++
          (((splitLines t).getLast (splitLines_ne_nil t) ++ hu0) :: tu) := by
      rw [splitLines_append, hLu]
      conv_lhs => rw [hBt]
      rw [joinLast_concat]
    have hmem : l ∈ (splitLines t).dropLast ++
        [(splitLines t).getLast (splitLines_ne_nil t)] := by
      rw [← hBt]
      exact hl
    rcases List.mem_append.mp hmem with hl2 | hl3
    · apply H
      rw [hjoin]
      exact List.mem_append_left _ hl2
    · have hleq : l = (splitLines t).getLast (splitLines_ne_nil t) := by
        simpa using hl3
      subst hleq
      have hx : blankOrComment
          ((splitLines t).getLast (splitLines_ne_nil t) ++ hu0) = true := by
        apply H
        rw [hjoin]
        simp
      have hu0w : ∀ c ∈ hu0, isPySpace c = true :=
        fun c mc => hu c (mem_of_mem_splitLines (by rw [hLu]; simp) mc)
      unfold blankOrComment at hx ⊢
      rwa [pyStrip_append_ws hu0w] at hx

/-- C9: for every payload each of whose lines is blank (whitespace only) or a
`%`-comment line, `validate_prolog_syntax` returns true — the documented
escape hatch for "no concepts on this page". -/
theorem c9_comments_only_valid (s : List Char)
    (H : ∀ l ∈ splitLines s, blankOrComment l = true) :
    validate_prolog_syntax s = true := by
  have hH2 : ∀ l ∈ splitLines (s.dropWhile isPySpace), blankOrComment l = true := by
    apply blank_lines_append_left (w := s.takeWhile isPySpace)
      (fun c m => List.mem_takeWhile_imp m)
    rw [List.takeWhile_append_dropWhile]
    exact H
  have hH3 : ∀ l ∈ splitLines ((s.dropWhile isPySpace).rdropWhile isPySpace),
      blankOrComment l = true := by
    apply blank_lines_append_right
      (u := (s.dropWhile isPySpace).rtakeWhile isPySpace)
      (fun c m => List.mem_rtakeWhile_imp m)
    rw [rdropWhile_append_rtakeWhile]
    exact hH2
  unfold validate_prolog_syntax pyStrip
  exact validateLines_of_blank _ hH3

/-- Witness for `c9_comments_only_valid` on a payload of blank and comment
lines. -/
theorem c9_comments_only_valid_witness :
    (∀ l ∈ splitLines ("  \n% note\n\n  % more  ".data), blankOrComment l = true) ∧
    validate_prolog_syntax ("  \n% note\n\n  % more  ".data) = true :=
  ⟨by decide, c9_comments_only_valid _ (by decide)⟩

end GTExtract
